import Mathlib

/-!
Verification development for `qcengine/programs/dftd4.py` (`DFTD4Harness`).

The harness is a thin adapter: it normalizes the method string and keyword
aliases of a calculation request, resolves a dispersion plan through the
external resolver `from_arrays`, delegates the computation to the dftd4
backend (`run_qcschema`), and annotates the returned result with derived
quantities.  The embedding below models Python dictionaries as ordered
association lists, floats as rationals, and the external collaborators
(`from_arrays`, `run_qcschema`, `safe_version`, the alias table) as
parameters of the functions that call them.
-/

/-- Resolved dispersion plan returned by the external resolver.  The harness
only reads its `fctldash` field, so the plan is modelled by that field. -/
structure Plan where
  fctldash : String
deriving Repr

/-- Python values stored in keyword / extras dictionaries, as far as the
harness inspects them. -/
inductive Val : Type where
  | str (s : String)
  | num (q : ℚ)
  | arr (xs : List ℚ)
  | bool (b : Bool)
  | plan (p : Plan)
  | bag (entries : List (String × Val))

/-- Python `s.startswith(p)` (code-point-wise). -/
def py_startswith (s p : String) : Bool :=
  p.data.isPrefixOf s.data

/-- Python `s.endswith(p)` (code-point-wise). -/
def py_endswith (s p : String) : Bool :=
  p.data.isSuffixOf s.data

/-- Python `s[n:]`: drop the first `n` code points. -/
def py_drop (s : String) (n : Nat) : String :=
  ⟨s.data.drop n⟩

/-- Python `s[:-n]` for `n ≥ 1`: keep the first `len(s) - n` code points
(the empty string when `n ≥ len(s)`). -/
def py_dropright (s : String) (n : Nat) : String :=
  ⟨s.data.take (s.data.length - n)⟩

/-- Python `s.lower()` (ASCII case mapping, which covers the method and
alias strings the harness handles). -/
def py_lower (s : String) : String :=
  ⟨s.data.map Char.toLower⟩

/-- Python `s.upper()` (ASCII case mapping). -/
def py_upper (s : String) : String :=
  ⟨s.data.map Char.toUpper⟩

/-- First-match lookup in an ordered association list (Python `dict.get` /
`d[k]` semantics; dict keys are unique so first match is the match). -/
def dict_get {α : Type} : List (String × α) → String → Option α
  | [], _ => none
  | (k, v) :: rest, key => if k = key then some v else dict_get rest key

/-- Key assignment `d[k] = v`: overwrite the existing entry in place, or
append a fresh entry at the end (Python insertion-order semantics). -/
def dict_set {α : Type} : List (String × α) → String → α → List (String × α)
  | [], key, v => [(key, v)]
  | (k, w) :: rest, key, v =>
      if k = key then (key, v) :: rest else (k, w) :: dict_set rest key v

/-- Python `d.update(other)`: assign every entry of `other` into `d`, in
order. -/
def dict_update {α : Type} (d other : List (String × α)) : List (String × α) :=
  other.foldl (fun acc kv => dict_set acc kv.1 kv.2) d

/-- A well-formed Python dictionary has pairwise-distinct keys. -/
def dict_keys_nodup {α : Type} (d : List (String × α)) : Prop :=
  (d.map Prod.fst).Nodup

/-- Extras / keyword bags of the host schema. -/
abbrev Dict := List (String × Val)

/-- The keyword entries that `DFTD4Harness.compute` reads or writes.
`none` models an absent key (`keywords.get(k, None)` returning `None`). -/
structure Keywords where
  params_tweaks : Option Val
  level_hint : Option String
  dashcoeff_supplement : Option Val
  pair_resolved : Option Val

/-- The fields of `AtomicInput` that the harness touches. -/
structure AtomicInput where
  method : String
  driver : String
  keywords : Keywords
  extras : Dict

/-- The fields of `AtomicResult` that the harness touches
(`properties.return_energy` is flattened to `return_energy`). -/
structure AtomicResult where
  return_energy : ℚ
  return_result : Val
  extras : Dict

/-- Outcome of the external plan resolver `from_arrays`: success, the
recognized invalid-input error (`InputError`), or any other exception. -/
inductive PlanOutcome where
  | ok (planinfo : Plan)
  | inputError
  | otherError (msg : String)

/-- Type of the external resolver: `from_arrays(verbose, name_hint,
level_hint, param_tweaks, dashcoeff_supplement)`. -/
abbrev ResolverFn := Nat → String → Option String → Option Val → Option Val → PlanOutcome

/-- Exceptions that `compute` / `get_version` can raise. -/
inductive Err where
  | missingDependency
  | resolverError (msg : String)
  | keyError
  | typeError
  | assertError
deriving DecidableEq

/-- Modelled from the spec: the external `get_dispersion_aliases` table
(defined in `empirical_dispersion_resources`, not part of the excerpt) maps
lowercase alias strings to canonical dispersion-kind tags; the spec names the
pair `"d4bj" ↦` the D4-with-Becke-Johnson-damping tag (spelled `"d4bj"` in
the code's comparisons) and `"d4"` as the canonical short name for that tag. -/
def get_dispersion_aliases : List (String × String) :=
  [("d4", "d4bj"), ("d4bj", "d4bj")]

/-- Engine-hint stripping in `compute`:
`if mtd.startswith("d4-"): mtd = mtd[3:]`. -/
def strip_engine_hint (mtd : String) : String :=
  if py_startswith mtd "d4-" then py_drop mtd 3 else mtd

/-- `param_tweaks = None if mtd else input_model.keywords.get("params_tweaks", None)`
(`mtd` truthy means non-empty). -/
def param_tweaks (mtd : String) (kw : Keywords) : Option Val :=
  if mtd ≠ "" then none else kw.params_tweaks

/-- Dispersion-level suffix stripping in `compute`: iterate the alias table
and, on entries whose tag is `"d4bj"`, test `mtd.lower().endswith(alias)`;
on a match truncate `mtd[: -(len(alias) + 1)]` and continue the loop with
the truncated string. -/
def strip_dispersion_level (aliases : List (String × String)) (mtd : String) : String :=
  aliases.foldl
    (fun m ad =>
      if ad.2 = "d4bj" ∧ py_endswith (py_lower m) ad.1 then py_dropright m (ad.1.length + 1)
      else m)
    mtd

/-- Level-hint consolidation in `compute`: if `level_hint` is truthy, index
the alias table at `level_hint.lower()` (an unguarded `dict[...]` access, so
a missing key raises `KeyError`); when the tag is `"d4bj"`, the keyword is
rewritten to `"d4"`.  Returns the (possibly rewritten) keyword value. -/
def consolidate_level_hint (aliases : List (String × String)) (lh : Option String) :
    Except Err (Option String) :=
  match lh with
  | none => Except.ok none
  | some s =>
    if s = "" then Except.ok (some s)
    else
      match dict_get aliases (py_lower s) with
      | none => Except.error Err.keyError
      | some tag => if tag = "d4bj" then Except.ok (some "d4") else Except.ok (some s)

/-- Steps of `compute` after the plan-resolution `try`/`except`: suffix
stripping (written back into the working copy; the in-loop write-back of the
source equals a single final write because the working copy's method always
holds the current `mtd`), level-hint consolidation, and reconstruction of
the request object. -/
def finish_preprocess (aliases : List (String × String))
    (input_model input_data : AtomicInput) (mtd : String) : Except Err AtomicInput :=
  let mtd2 := strip_dispersion_level aliases mtd
  let input_data2 := { input_data with method := mtd2 }
  match consolidate_level_hint aliases input_model.keywords.level_hint with
  | Except.error e => Except.error e
  | Except.ok lh2 =>
      Except.ok { input_data2 with keywords := { input_data2.keywords with level_hint := lh2 } }

/-- Normalization phase of `compute` (steps up to and including the
reconstruction `input_model = AtomicInput(**input_data)`): engine-hint
stripping, `param_tweaks` selection, plan resolution with `InputError`
swallowed and the plan stashed under `extras["info"]` on success, then
`finish_preprocess`. -/
def preprocess (aliases : List (String × String)) (from_arrays : ResolverFn)
    (input_model : AtomicInput) : Except Err AtomicInput :=
  let mtd := strip_engine_hint input_model.method
  let input_data := { input_model with method := mtd }
  let pt := param_tweaks mtd input_model.keywords
  match from_arrays 1 mtd input_model.keywords.level_hint pt
      input_model.keywords.dashcoeff_supplement with
  | PlanOutcome.otherError e => Except.error (Err.resolverError e)
  | PlanOutcome.inputError => finish_preprocess aliases input_model input_data mtd
  | PlanOutcome.ok planinfo =>
      finish_preprocess aliases input_model
        { input_data with extras := dict_set input_data.extras "info" (Val.plan planinfo) } mtd

/-- The `calcinfo` dictionary before the `pair_resolved` block: energy keys
always, gradient keys when the driver is `"gradient"`, with the
`qcvkey`-prefixed variants only when `qcvkey` is non-empty. -/
def build_base_calcinfo (qcvkey : String) (driver : String) (ene : ℚ) (grad : Val) : Dict :=
  let c : Dict := []
  let c := dict_set c "CURRENT ENERGY" (Val.num ene)
  let c := dict_set c "DISPERSION CORRECTION ENERGY" (Val.num ene)
  let c :=
    if qcvkey ≠ "" then dict_set c (qcvkey ++ " DISPERSION CORRECTION ENERGY") (Val.num ene)
    else c
  if driver = "gradient" then
    let c := dict_set c "CURRENT GRADIENT" grad
    let c := dict_set c "DISPERSION CORRECTION GRADIENT" grad
    if qcvkey ≠ "" then dict_set c (qcvkey ++ " DISPERSION CORRECTION GRADIENT") grad
    else c
  else c

/-- The `pair_resolved` block of `compute`: read the two pairwise arrays from
the (already merged) result extras under `"dftd4"`, assert that their sums
combine to the returned energy within `1e-8` (an `assert`, fatal on
violation), then add the four derived entries to `calcinfo`. -/
def add_pair_resolved (extras : Dict) (ene : ℚ) (calcinfo : Dict) : Except Err Dict :=
  match dict_get extras "dftd4" with
  | some (Val.bag d4e) =>
    match dict_get d4e "additive pairwise energy", dict_get d4e "non-additive pairwise energy" with
    | some (Val.arr pw2), some (Val.arr pw3) =>
        if |pw2.sum + pw3.sum - ene| < 1 / 10 ^ 8 then
          Except.ok (dict_set (dict_set (dict_set (dict_set calcinfo
            "2-BODY DISPERSION CORRECTION ENERGY" (Val.num pw2.sum))
            "3-BODY DISPERSION CORRECTION ENERGY" (Val.num pw3.sum))
            "2-BODY PAIRWISE DISPERSION CORRECTION ANALYSIS" (Val.arr pw2))
            "3-BODY PAIRWISE DISPERSION CORRECTION ANALYSIS" (Val.arr pw3))
        else Except.error Err.assertError
    | _, _ => Except.error Err.keyError
  | some _ => Except.error Err.typeError
  | none => Except.error Err.keyError

/-- Post-delegation phase of `compute`: merge the reconstructed request's
extras over the backend result's extras (`output.extras.update(...)`), and,
when the request extras carry the stashed plan under `"info"`, build the
`calcinfo` bag and attach it under `extras["qcvars"]`. -/
def postprocess (input_model : AtomicInput) (output : AtomicResult) : Except Err AtomicResult :=
  let extras := dict_update output.extras input_model.extras
  match dict_get input_model.extras "info" with
  | none => Except.ok { output with extras := extras }
  | some (Val.plan planinfo) =>
    let qcvkey := py_upper planinfo.fctldash
    let ene := output.return_energy
    let calcinfo := build_base_calcinfo qcvkey input_model.driver ene output.return_result
    match input_model.keywords.pair_resolved with
    | some (Val.bool true) =>
      match add_pair_resolved extras ene calcinfo with
      | Except.error e => Except.error e
      | Except.ok calcinfo2 =>
          Except.ok { output with extras := dict_set extras "qcvars" (Val.bag calcinfo2) }
    | _ => Except.ok { output with extras := dict_set extras "qcvars" (Val.bag calcinfo) }
  | some _ => Except.error Err.typeError

/-- `DFTD4Harness.compute`: availability check, normalization, delegation to
`run_qcschema`, post-processing.  The external alias table, resolver and
backend delegate are parameters. -/
def compute (aliases : List (String × String)) (from_arrays : ResolverFn)
    (run_qcschema : AtomicInput → AtomicResult) (dftd4_found : Bool)
    (input_model : AtomicInput) : Except Err AtomicResult :=
  if dftd4_found then
    match preprocess aliases from_arrays input_model with
    | Except.error e => Except.error e
    | Except.ok im => postprocess im (run_qcschema im)
  else Except.error Err.missingDependency

/-- `DFTD4Harness.get_version`: availability check, then serve the version
string from the class-level `version_cache` keyed by the resolved path,
reading the backend's `__version__` (through `safe_version`, the parameter
`sv`) only on a cache miss.  The returned `Bool` records whether the backend
version accessor was read; the returned list is the updated cache. -/
def get_version (dftd4_found : Bool) (which_prog : String) (dftd4_version : String)
    (sv : String → String) (version_cache : List (String × String)) :
    Except Err (String × List (String × String) × Bool) :=
  if dftd4_found then
    match dict_get version_cache which_prog with
    | some v => Except.ok (v, version_cache, false)
    | none =>
        let v := sv dftd4_version
        Except.ok (v, dict_set version_cache which_prog v, true)
  else Except.error Err.missingDependency

theorem dict_get_set_self {α : Type} (d : List (String × α)) (k : String) (v : α) :
    dict_get (dict_set d k v) k = some v := by
  induction d with
  | nil => simp [dict_get, dict_set]
  | cons kv rest ih =>
    obtain ⟨k', w⟩ := kv
    by_cases h : k' = k
    · simp [dict_get, dict_set, h]
    · simp [dict_get, dict_set, h, ih]

theorem dict_get_set_ne {α : Type} (d : List (String × α)) (k key : String) (v : α)
    (h : k ≠ key) : dict_get (dict_set d k v) key = dict_get d key := by
  induction d with
  | nil => simp [dict_get, dict_set, h]
  | cons kv rest ih =>
    obtain ⟨k', w⟩ := kv
    by_cases h' : k' = k
    · subst h'
      simp [dict_get, dict_set, h]
    · simp [dict_get, dict_set, h', ih]

theorem dict_get_eq_none_of_not_mem {α : Type} (d : List (String × α)) (k : String)
    (h : k ∉ d.map Prod.fst) : dict_get d k = none := by
  induction d with
  | nil => simp [dict_get]
  | cons kv rest ih =>
    obtain ⟨k', w⟩ := kv
    simp only [List.map_cons, List.mem_cons, not_or] at h
    simp [dict_get, ih h.2, Ne.symm h.1]

theorem dict_get_update_of_none {α : Type} (d o : List (String × α)) (k : String)
    (h : dict_get o k = none) : dict_get (dict_update d o) k = dict_get d k := by
  induction o generalizing d with
  | nil => simp [dict_update]
  | cons kv rest ih =>
    obtain ⟨k', w⟩ := kv
    simp only [dict_get] at h
    by_cases hk : k' = k
    · simp [hk] at h
    · rw [show dict_update d ((k', w) :: rest) =
            dict_update (dict_set d k' w) rest from rfl,
          ih (dict_set d k' w) (by simpa [hk] using h), dict_get_set_ne _ _ _ _ hk]

theorem dict_get_update_of_some {α : Type} (d o : List (String × α)) (k : String) (v : α)
    (hnd : dict_keys_nodup o) (h : dict_get o k = some v) :
    dict_get (dict_update d o) k = some v := by
  induction o generalizing d with
  | nil => simp [dict_get] at h
  | cons kv rest ih =>
    obtain ⟨k', w⟩ := kv
    simp only [dict_keys_nodup, List.map_cons, List.nodup_cons] at hnd
    simp only [dict_get] at h
    by_cases hk : k' = k
    · subst hk
      rw [if_pos rfl, Option.some_inj] at h
      subst h
      have hrest : dict_get rest k' = none :=
        dict_get_eq_none_of_not_mem rest k' hnd.1
      rw [show dict_update d ((k', w) :: rest) =
            dict_update (dict_set d k' w) rest from rfl,
          dict_get_update_of_none _ _ _ hrest, dict_get_set_self]
    · simp only [if_neg hk] at h
      rw [show dict_update d ((k', w) :: rest) =
            dict_update (dict_set d k' w) rest from rfl]
      exact ih (dict_set d k' w) hnd.2 h

theorem dict_get_update_isSome {α : Type} (d o : List (String × α)) (k : String)
    (h : (dict_get o k).isSome) : (dict_get (dict_update d o) k).isSome := by
  induction o generalizing d with
  | nil => simp [dict_get] at h
  | cons kv rest ih =>
    obtain ⟨k', w⟩ := kv
    simp only [dict_get] at h
    rw [show dict_update d ((k', w) :: rest) = dict_update (dict_set d k' w) rest from rfl]
    by_cases hk : k' = k
    · subst hk
      cases hrest : dict_get rest k' with
      | some u => exact ih _ (by simp [hrest])
      | none =>
        rw [dict_get_update_of_none _ _ _ hrest, dict_get_set_self]
        rfl
    · exact ih _ (by simpa [hk] using h)

/-- Resolver that always raises the recognized invalid-input error. -/
def resolver_input_error : ResolverFn := fun _ _ _ _ _ => PlanOutcome.inputError

/-- Resolver that always succeeds with the given plan. -/
def resolver_ok (p : Plan) : ResolverFn := fun _ _ _ _ _ => PlanOutcome.ok p

/-- Resolver that always raises a non-`InputError` exception. -/
def resolver_other (msg : String) : ResolverFn := fun _ _ _ _ _ => PlanOutcome.otherError msg

/-- Backend delegate that records the method string it was handed. -/
def echo_backend : AtomicInput → AtomicResult :=
  fun im => ⟨0, Val.num 0, [("seen_method", Val.str im.method)]⟩

/-- An empty keyword bag (every consulted key absent). -/
def kw_none : Keywords := ⟨none, none, none, none⟩

/-- A plain energy request with no keywords and empty extras. -/
def input_plain : AtomicInput := ⟨"pbe", "energy", kw_none, []⟩

/-- C1, counterexample: the code tests `mtd.lower().endswith(alias)`, not
`endswith("-" + alias)`, so the method `"pbed4bj"`, which ends with the
D4-BJ alias `"d4bj"` without a preceding `"-"`, is still truncated by
`len(alias) + 1 = 5` characters, and the backend is delegated the mangled
method `"pb"` instead of the untouched `"pbed4bj"`. -/
theorem claim_C1_suffix_strip_cex :
    compute get_dispersion_aliases resolver_input_error echo_backend true
        ⟨"pbed4bj", "energy", kw_none, []⟩ =
      Except.ok ⟨0, Val.num 0, [("seen_method", Val.str "pb")]⟩ ∧
    ("pb" : String) ≠ "pbed4bj" := by
  exact ⟨rfl, by decide⟩

/-- C1, amended: in the suffix-stripping loop of `compute`, an alias-table
entry whose tag is the D4-BJ tag truncates the working method string by
alias-length + 1 characters if and only if the method ends
(case-insensitively) with the alias itself — no preceding `"-"` is
required; entries with any other tag leave the method unchanged, and the
loop processes the table entries in order, feeding each step's output to
the next. -/
theorem claim_C1_suffix_strip_amended :
    (∀ a mtd : String,
      strip_dispersion_level [(a, "d4bj")] mtd =
        if py_endswith (py_lower mtd) a then py_dropright mtd (a.length + 1) else mtd)
    ∧ (∀ (tbl : List (String × String)) (mtd : String),
        (∀ p ∈ tbl, p.2 ≠ "d4bj") → strip_dispersion_level tbl mtd = mtd)
    ∧ (∀ (a t mtd : String) (rest : List (String × String)),
        strip_dispersion_level ((a, t) :: rest) mtd =
          strip_dispersion_level rest
            (if t = "d4bj" ∧ py_endswith (py_lower mtd) a then py_dropright mtd (a.length + 1)
             else mtd)) := by
  refine ⟨?_, ?_, ?_⟩
  · intro a mtd
    by_cases h : py_endswith (py_lower mtd) a <;> simp [strip_dispersion_level, h]
  · intro tbl
    induction tbl with
    | nil => intro mtd _; rfl
    | cons p rest ih =>
      intro mtd h
      have hp : p.2 ≠ "d4bj" := h p (by simp)
      have hstep : strip_dispersion_level (p :: rest) mtd = strip_dispersion_level rest mtd := by
        simp only [strip_dispersion_level, List.foldl_cons]
        rw [if_neg fun hc => hp hc.1]
      rw [hstep]
      exact ih mtd fun q hq => h q (List.mem_cons_of_mem _ hq)
  · intro a t mtd rest
    rfl

/-- C1, witness for the amended theorem: a table entry with a non-D4-BJ tag
leaves the method unchanged. -/
theorem claim_C1_suffix_strip_amended_witness :
    strip_dispersion_level [("d4bj", "d3bj")] "pbe-d4bj" = "pbe-d4bj" :=
  claim_C1_suffix_strip_amended.2.1 [("d4bj", "d3bj")] "pbe-d4bj" (by decide)

/-- C5: the parameter tweaks passed to the plan resolver follow the
method-name precedence — a non-empty (prefix-stripped) method forces `None`
without consulting `keywords["params_tweaks"]` (the selection is invariant
in the keyword bag), an empty method passes the keyword's value (or `None`
when absent); and `preprocess` hands the resolver exactly
`param_tweaks (strip_engine_hint method) keywords` in the tweaks slot, as a
recording resolver observes. -/
theorem claim_C5_param_tweaks_precedence (mtd : String) (kw kw' : Keywords) :
    (mtd ≠ "" → param_tweaks mtd kw = none ∧ param_tweaks mtd kw = param_tweaks mtd kw')
    ∧ (mtd = "" → param_tweaks mtd kw = kw.params_tweaks)
    ∧ (∀ (tbl : List (String × String)) (input : AtomicInput),
        preprocess tbl
          (fun _ _ _ pt _ =>
            PlanOutcome.otherError (if pt.isNone then "none passed" else "value passed"))
          input =
        Except.error (Err.resolverError
          (if (param_tweaks (strip_engine_hint input.method) input.keywords).isNone then
            "none passed"
          else "value passed"))) := by
  refine ⟨fun h => ⟨by simp [param_tweaks, h], by simp [param_tweaks, h]⟩,
    fun h => by simp [param_tweaks, h], ?_⟩
  intro tbl input
  rfl

/-- C5, witness: with method `"pbe"` the tweaks keyword is ignored and
`None` is selected. -/
theorem claim_C5_param_tweaks_precedence_witness :
    param_tweaks "pbe" ⟨some (Val.num 1), none, none, none⟩ = none ∧
    param_tweaks "pbe" ⟨some (Val.num 1), none, none, none⟩ = param_tweaks "pbe" kw_none :=
  (claim_C5_param_tweaks_precedence "pbe" ⟨some (Val.num 1), none, none, none⟩ kw_none).1
    (by decide)

/-- C7: a method beginning with `"d4-"` has the prefix removed exactly once
(`"d4-pbe"` to `"pbe"`, `"d4-d4-pbe"` to `"d4-pbe"`), a method not beginning
with `"d4-"` is left unchanged, and the stripping happens before plan
resolution — the resolver's name hint is already the stripped method, as a
recording resolver observes. -/
theorem claim_C7_engine_hint_once (mtd : String) :
    (py_startswith mtd "d4-" = true → strip_engine_hint mtd = py_drop mtd 3)
    ∧ (py_startswith mtd "d4-" = false → strip_engine_hint mtd = mtd)
    ∧ strip_engine_hint "d4-pbe" = "pbe"
    ∧ strip_engine_hint "d4-d4-pbe" = "d4-pbe"
    ∧ (∀ (tbl : List (String × String)) (input : AtomicInput),
        preprocess tbl (fun _ nh _ _ _ => PlanOutcome.otherError nh) input =
          Except.error (Err.resolverError (strip_engine_hint input.method))) := by
  refine ⟨fun h => by simp [strip_engine_hint, h], fun h => by simp [strip_engine_hint, h],
    by decide, by decide, fun tbl input => rfl⟩

/-- C7, witness: the prefix of `"d4-pbe"` is stripped into `mtd[3:]`. -/
theorem claim_C7_engine_hint_once_witness :
    strip_engine_hint "d4-pbe" = py_drop "d4-pbe" 3 :=
  (claim_C7_engine_hint_once "d4-pbe").1 (by decide)

/-- C8: `get_version` is idempotent through the process-wide cache — when
the resolved path is not yet cached, the first call reads the backend's
version accessor (flag `true`) and the second call returns the identical
string out of the cache without reading the backend (flag `false`). -/
theorem claim_C8_get_version_cached (wp ver : String) (sv : String → String)
    (cache : List (String × String)) (h : dict_get cache wp = none) :
    ∃ v c1,
      get_version true wp ver sv cache = Except.ok (v, c1, true) ∧
      get_version true wp ver sv c1 = Except.ok (v, c1, false) := by
  refine ⟨sv ver, dict_set cache wp (sv ver), ?_, ?_⟩
  · simp [get_version, h]
  · simp [get_version, dict_get_set_self]

/-- C8, witness: concrete two-call run on an empty cache. -/
theorem claim_C8_get_version_cached_witness :
    ∃ v c1,
      get_version true "path-to-dftd4" "3.5.0" id [] = Except.ok (v, c1, true) ∧
      get_version true "path-to-dftd4" "3.5.0" id c1 = Except.ok (v, c1, false) :=
  claim_C8_get_version_cached "path-to-dftd4" "3.5.0" id [] rfl

/-- C10: the engine-prefix check is case-sensitive while the suffix check is
case-insensitive — `"D4-pbe"` keeps its uppercase prefix (in general any
method not starting with the exact lowercase `"d4-"` is unchanged), while a
method ending with an uppercase D4-BJ alias suffix is still truncated
(`"pbe-D4BJ"` to `"pbe"`; in general the truncation fires whenever the
lowercased method ends with the alias). -/
theorem claim_C10_case_sensitivity :
    strip_engine_hint "D4-pbe" = "D4-pbe"
    ∧ strip_dispersion_level [("d4bj", "d4bj")] "pbe-D4BJ" = "pbe"
    ∧ (∀ mtd : String, py_startswith mtd "d4-" = false → strip_engine_hint mtd = mtd)
    ∧ (∀ a mtd : String, py_endswith (py_lower mtd) a = true →
        strip_dispersion_level [(a, "d4bj")] mtd = py_dropright mtd (a.length + 1)) := by
  refine ⟨by decide, by decide, fun mtd h => by simp [strip_engine_hint, h], ?_⟩
  intro a mtd h
  simp [strip_dispersion_level, h]

/-- C10, witness: the uppercase suffix `"D4BJ"` is truncated. -/
theorem claim_C10_case_sensitivity_witness :
    strip_dispersion_level [("d4bj", "d4bj")] "PBE-D4BJ" =
      py_dropright "PBE-D4BJ" (("d4bj" : String).length + 1) :=
  claim_C10_case_sensitivity.2.2.2 "d4bj" "PBE-D4BJ" (by decide)

/-- C3: at the plan-resolution step of `compute`, exactly the recognized
invalid-input error is recovered from — an `InputError` from the resolver is
swallowed and the working copy's extras stay exactly as they were (no
`"info"` stashed); a successful resolution stores the plan under
`extras["info"]`; any other resolver exception propagates out of `compute`
unmodified, whatever the backend delegate is. -/
theorem claim_C3_resolver_error_handling (tbl : List (String × String)) (fa : ResolverFn)
    (input : AtomicInput) :
    (∀ e, fa 1 (strip_engine_hint input.method) input.keywords.level_hint
        (param_tweaks (strip_engine_hint input.method) input.keywords)
        input.keywords.dashcoeff_supplement = PlanOutcome.otherError e →
      ∀ rq : AtomicInput → AtomicResult,
        compute tbl fa rq true input = Except.error (Err.resolverError e))
    ∧ (fa 1 (strip_engine_hint input.method) input.keywords.level_hint
        (param_tweaks (strip_engine_hint input.method) input.keywords)
        input.keywords.dashcoeff_supplement = PlanOutcome.inputError →
      ∀ im, preprocess tbl fa input = Except.ok im → im.extras = input.extras)
    ∧ (∀ p, fa 1 (strip_engine_hint input.method) input.keywords.level_hint
        (param_tweaks (strip_engine_hint input.method) input.keywords)
        input.keywords.dashcoeff_supplement = PlanOutcome.ok p →
      ∀ im, preprocess tbl fa input = Except.ok im →
        dict_get im.extras "info" = some (Val.plan p)) := by
  refine ⟨?_, ?_, ?_⟩
  · intro e he rq
    simp only [compute, preprocess, he, if_true]
  · intro h im him
    simp only [preprocess, h, finish_preprocess] at him
    split at him
    · exact absurd him (by simp)
    · simp only [Except.ok.injEq] at him
      subst him
      rfl
  · intro p h im him
    simp only [preprocess, h, finish_preprocess] at him
    split at him
    · exact absurd him (by simp)
    · simp only [Except.ok.injEq] at him
      subst him
      exact dict_get_set_self input.extras "info" (Val.plan p)

/-- C3, witness: a non-`InputError` resolver failure propagates out of
`compute` unmodified. -/
theorem claim_C3_resolver_error_handling_witness :
    compute [] (resolver_other "boom") echo_backend true input_plain =
      Except.error (Err.resolverError "boom") :=
  (claim_C3_resolver_error_handling [] (resolver_other "boom") input_plain).1 "boom" rfl
    echo_backend

/-- C9: a truthy `level_hint` keyword whose lowercased value is not a key of
the alias table makes `compute` raise the unguarded `KeyError` of the
level-hint consolidation step (provided the resolver did not already raise a
non-`InputError` exception earlier), for every backend delegate — such a
request never reaches the delegate. -/
theorem claim_C9_level_hint_keyerror (tbl : List (String × String)) (fa : ResolverFn)
    (input : AtomicInput) (s : String)
    (hlh : input.keywords.level_hint = some s) (hs : s ≠ "")
    (hmiss : dict_get tbl (py_lower s) = none)
    (hfa : ∀ e, fa 1 (strip_engine_hint input.method) input.keywords.level_hint
        (param_tweaks (strip_engine_hint input.method) input.keywords)
        input.keywords.dashcoeff_supplement ≠ PlanOutcome.otherError e) :
    ∀ rq : AtomicInput → AtomicResult,
      compute tbl fa rq true input = Except.error Err.keyError := by
  intro rq
  have hcons : consolidate_level_hint tbl input.keywords.level_hint =
      Except.error Err.keyError := by
    rw [hlh]
    simp only [consolidate_level_hint, if_neg hs, hmiss]
  cases hout : fa 1 (strip_engine_hint input.method) input.keywords.level_hint
      (param_tweaks (strip_engine_hint input.method) input.keywords)
      input.keywords.dashcoeff_supplement with
  | otherError e => exact absurd hout (hfa e)
  | inputError =>
    simp only [compute, preprocess, hout, finish_preprocess, hcons, if_true]
  | ok p =>
    simp only [compute, preprocess, hout, finish_preprocess, hcons, if_true]

/-- C9, witness: `level_hint = "zzz"` with an empty alias table raises the
`KeyError` before the delegate runs. -/
theorem claim_C9_level_hint_keyerror_witness :
    compute [] resolver_input_error echo_backend true
        ⟨"pbe", "energy", ⟨none, some "zzz", none, none⟩, []⟩ =
      Except.error Err.keyError :=
  claim_C9_level_hint_keyerror [] resolver_input_error
    ⟨"pbe", "energy", ⟨none, some "zzz", none, none⟩, []⟩ "zzz" rfl (by decide) rfl
    (fun e h => PlanOutcome.noConfusion h) echo_backend

theorem preprocess_ok_explicit (tbl : List (String × String)) (fa : ResolverFn)
    (input : AtomicInput) (p : Plan)
    (hfa : ∀ v m lh pt ds, fa v m lh pt ds = PlanOutcome.ok p)
    (hlh : input.keywords.level_hint = none) :
    preprocess tbl fa input = Except.ok
      { method := strip_dispersion_level tbl (strip_engine_hint input.method),
        driver := input.driver,
        keywords := { input.keywords with level_hint := none },
        extras := dict_set input.extras "info" (Val.plan p) } := by
  have hcons : consolidate_level_hint tbl input.keywords.level_hint = Except.ok none := by
    rw [hlh]
    rfl
  simp only [preprocess, hfa, finish_preprocess, hcons]

/-- C2: with `keywords["pair_resolved"]` exactly boolean true and a stashed
plan, the two pairwise-energy arrays are read from the backend result's
extras under `"dftd4"`; when their combined sum is not within `1e-8` of the
returned energy the call fails fatally with the assertion error and returns
no result; otherwise the 2-body and 3-body summed energies and the two raw
arrays are added to the `qcvars` bag, and the 2-body plus 3-body entries
sum to the returned energy within the same tolerance. -/
theorem claim_C2_pair_resolved_tolerance (tbl : List (String × String)) (fa : ResolverFn)
    (rq : AtomicInput → AtomicResult) (p : Plan) (input : AtomicInput) (out0 : AtomicResult)
    (d4bag : Dict) (pw2 pw3 : List ℚ)
    (hfa : ∀ v m lh pt ds, fa v m lh pt ds = PlanOutcome.ok p)
    (hlh : input.keywords.level_hint = none)
    (hpr : input.keywords.pair_resolved = some (Val.bool true))
    (hd4 : dict_get input.extras "dftd4" = none)
    (hrq : ∀ im, rq im = out0)
    (hbag : dict_get out0.extras "dftd4" = some (Val.bag d4bag))
    (hpw2 : dict_get d4bag "additive pairwise energy" = some (Val.arr pw2))
    (hpw3 : dict_get d4bag "non-additive pairwise energy" = some (Val.arr pw3)) :
    (¬ |pw2.sum + pw3.sum - out0.return_energy| < 1 / 10 ^ 8 →
      compute tbl fa rq true input = Except.error Err.assertError)
    ∧ (|pw2.sum + pw3.sum - out0.return_energy| < 1 / 10 ^ 8 →
      ∃ res, compute tbl fa rq true input = Except.ok res ∧
        ∃ ci, dict_get res.extras "qcvars" = some (Val.bag ci) ∧
          dict_get ci "2-BODY DISPERSION CORRECTION ENERGY" = some (Val.num pw2.sum) ∧
          dict_get ci "3-BODY DISPERSION CORRECTION ENERGY" = some (Val.num pw3.sum) ∧
          dict_get ci "2-BODY PAIRWISE DISPERSION CORRECTION ANALYSIS" = some (Val.arr pw2) ∧
          dict_get ci "3-BODY PAIRWISE DISPERSION CORRECTION ANALYSIS" = some (Val.arr pw3) ∧
          |pw2.sum + pw3.sum - out0.return_energy| < 1 / 10 ^ 8) := by
  have hpre := preprocess_ok_explicit tbl fa input p hfa hlh
  set im0 : AtomicInput :=
    { method := strip_dispersion_level tbl (strip_engine_hint input.method),
      driver := input.driver,
      keywords := { input.keywords with level_hint := none },
      extras := dict_set input.extras "info" (Val.plan p) } with him0
  have hcomp : compute tbl fa rq true input = postprocess im0 out0 := by
    simp only [compute, hpre, hrq, if_true]
  have hinfoget : dict_get im0.extras "info" = some (Val.plan p) :=
    dict_get_set_self input.extras "info" (Val.plan p)
  have him0d4 : dict_get im0.extras "dftd4" = none := by
    rw [him0]
    show dict_get (dict_set input.extras "info" (Val.plan p)) "dftd4" = none
    rw [dict_get_set_ne _ _ _ _ (by decide)]
    exact hd4
  have hmerged : dict_get (dict_update out0.extras im0.extras) "dftd4" =
      some (Val.bag d4bag) := by
    rw [dict_get_update_of_none _ _ _ him0d4]
    exact hbag
  have hpr0 : im0.keywords.pair_resolved = some (Val.bool true) := hpr
  have hpost : postprocess im0 out0 =
      match add_pair_resolved (dict_update out0.extras im0.extras) out0.return_energy
        (build_base_calcinfo (py_upper p.fctldash) im0.driver out0.return_energy
          out0.return_result) with
      | Except.error e => Except.error e
      | Except.ok calcinfo2 =>
          Except.ok { out0 with
            extras := dict_set (dict_update out0.extras im0.extras) "qcvars"
              (Val.bag calcinfo2) } := by
    simp only [postprocess, hinfoget, hpr0, hpr]
  have hadd : add_pair_resolved (dict_update out0.extras im0.extras) out0.return_energy
      (build_base_calcinfo (py_upper p.fctldash) im0.driver out0.return_energy
        out0.return_result) =
      if |pw2.sum + pw3.sum - out0.return_energy| < 1 / 10 ^ 8 then
        Except.ok (dict_set (dict_set (dict_set (dict_set
          (build_base_calcinfo (py_upper p.fctldash) im0.driver out0.return_energy
            out0.return_result)
          "2-BODY DISPERSION CORRECTION ENERGY" (Val.num pw2.sum))
          "3-BODY DISPERSION CORRECTION ENERGY" (Val.num pw3.sum))
          "2-BODY PAIRWISE DISPERSION CORRECTION ANALYSIS" (Val.arr pw2))
          "3-BODY PAIRWISE DISPERSION CORRECTION ANALYSIS" (Val.arr pw3))
      else Except.error Err.assertError := by
    simp only [add_pair_resolved, hmerged, hpw2, hpw3]
  constructor
  · intro htol
    rw [hcomp, hpost, hadd, if_neg htol]
  · intro htol
    rw [hcomp, hpost, hadd, if_pos htol]
    refine ⟨_, rfl, _, dict_get_set_self _ _ _, ?_, ?_, ?_, ?_, htol⟩
    · rw [dict_get_set_ne _ _ _ _ (by decide), dict_get_set_ne _ _ _ _ (by decide),
        dict_get_set_ne _ _ _ _ (by decide), dict_get_set_self]
    · rw [dict_get_set_ne _ _ _ _ (by decide), dict_get_set_ne _ _ _ _ (by decide),
        dict_get_set_self]
    · rw [dict_get_set_ne _ _ _ _ (by decide), dict_get_set_self]
    · rw [dict_get_set_self]

/-- C2, witness: pairwise arrays `[1]` and `[2]` summing exactly to the
returned energy `3` produce the four `qcvars` entries. -/
theorem claim_C2_pair_resolved_tolerance_witness :
    ∃ res, compute [] (resolver_ok ⟨"pbe-d4"⟩)
        (fun _ => ⟨3, Val.num 3,
          [("dftd4", Val.bag [("additive pairwise energy", Val.arr [1]),
                             ("non-additive pairwise energy", Val.arr [2])])]⟩) true
        ⟨"pbe", "energy", ⟨none, none, none, some (Val.bool true)⟩, []⟩ = Except.ok res ∧
      ∃ ci, dict_get res.extras "qcvars" = some (Val.bag ci) ∧
        dict_get ci "2-BODY DISPERSION CORRECTION ENERGY" = some (Val.num ([(1 : ℚ)].sum)) ∧
        dict_get ci "3-BODY DISPERSION CORRECTION ENERGY" = some (Val.num ([(2 : ℚ)].sum)) ∧
        dict_get ci "2-BODY PAIRWISE DISPERSION CORRECTION ANALYSIS" =
          some (Val.arr [(1 : ℚ)]) ∧
        dict_get ci "3-BODY PAIRWISE DISPERSION CORRECTION ANALYSIS" =
          some (Val.arr [(2 : ℚ)]) ∧
        |([(1 : ℚ)].sum) + ([(2 : ℚ)].sum) - (3 : ℚ)| < 1 / 10 ^ 8 :=
  (claim_C2_pair_resolved_tolerance [] (resolver_ok ⟨"pbe-d4"⟩)
      (fun _ => ⟨3, Val.num 3,
        [("dftd4", Val.bag [("additive pairwise energy", Val.arr [1]),
                           ("non-additive pairwise energy", Val.arr [2])])]⟩)
      ⟨"pbe-d4"⟩ ⟨"pbe", "energy", ⟨none, none, none, some (Val.bool true)⟩, []⟩
      ⟨3, Val.num 3,
        [("dftd4", Val.bag [("additive pairwise energy", Val.arr [1]),
                           ("non-additive pairwise energy", Val.arr [2])])]⟩
      [("additive pairwise energy", Val.arr [1]), ("non-additive pairwise energy", Val.arr [2])]
      [1] [2] (fun _ _ _ _ _ => rfl) rfl rfl rfl (fun _ => rfl) rfl rfl rfl).2 (by norm_num)

theorem preprocess_ok_fields (tbl : List (String × String)) (fa : ResolverFn)
    (input : AtomicInput) (p : Plan) (im : AtomicInput)
    (hfa : ∀ v m lh pt ds, fa v m lh pt ds = PlanOutcome.ok p)
    (him : preprocess tbl fa input = Except.ok im) :
    im.extras = dict_set input.extras "info" (Val.plan p) ∧
    im.driver = input.driver ∧
    im.keywords.pair_resolved = input.keywords.pair_resolved := by
  simp only [preprocess, hfa, finish_preprocess] at him
  split at him
  · exact absurd him (by simp)
  · simp only [Except.ok.injEq] at him
    subst him
    exact ⟨rfl, rfl, rfl⟩

theorem add_pair_resolved_preserved (extras : Dict) (ene : ℚ) (ci ci2 : Dict) (k : String)
    (h : add_pair_resolved extras ene ci = Except.ok ci2)
    (h2 : k ≠ "2-BODY DISPERSION CORRECTION ENERGY")
    (h3 : k ≠ "3-BODY DISPERSION CORRECTION ENERGY")
    (h4 : k ≠ "2-BODY PAIRWISE DISPERSION CORRECTION ANALYSIS")
    (h5 : k ≠ "3-BODY PAIRWISE DISPERSION CORRECTION ANALYSIS") :
    dict_get ci2 k = dict_get ci k := by
  unfold add_pair_resolved at h
  split at h
  · split at h
    · split at h
      · simp only [Except.ok.injEq] at h
        subst h
        rw [dict_get_set_ne _ _ _ _ (Ne.symm h5), dict_get_set_ne _ _ _ _ (Ne.symm h4),
          dict_get_set_ne _ _ _ _ (Ne.symm h3), dict_get_set_ne _ _ _ _ (Ne.symm h2)]
      · exact absurd h (by simp)
    · exact absurd h (by simp)
  · exact absurd h (by simp)
  · exact absurd h (by simp)

theorem base_calcinfo_gradient_gets (ene : ℚ) (grad : Val) :
    dict_get (build_base_calcinfo "PBE-D4" "gradient" ene grad) "CURRENT ENERGY" =
      some (Val.num ene) ∧
    dict_get (build_base_calcinfo "PBE-D4" "gradient" ene grad)
      "DISPERSION CORRECTION ENERGY" = some (Val.num ene) ∧
    dict_get (build_base_calcinfo "PBE-D4" "gradient" ene grad)
      "PBE-D4 DISPERSION CORRECTION ENERGY" = some (Val.num ene) ∧
    dict_get (build_base_calcinfo "PBE-D4" "gradient" ene grad) "CURRENT GRADIENT" =
      some grad ∧
    dict_get (build_base_calcinfo "PBE-D4" "gradient" ene grad)
      "DISPERSION CORRECTION GRADIENT" = some grad ∧
    dict_get (build_base_calcinfo "PBE-D4" "gradient" ene grad)
      "PBE-D4 DISPERSION CORRECTION GRADIENT" = some grad := by
  refine ⟨?_, ?_, ?_, ?_, ?_, ?_⟩ <;> rfl

/-- C6: for every request with driver `"gradient"` and a stashed plan whose
`fctldash` is `"pbe-d4"`, a successful `compute` returns a result whose
`extras["qcvars"]` bag holds `CURRENT ENERGY`, `DISPERSION CORRECTION
ENERGY` and `PBE-D4 DISPERSION CORRECTION ENERGY` all equal to the returned
energy, and `CURRENT GRADIENT`, `DISPERSION CORRECTION GRADIENT` and
`PBE-D4 DISPERSION CORRECTION GRADIENT` all equal to the returned gradient,
so each prefixed key holds the same value as its non-prefixed key. -/
theorem claim_C6_gradient_qcvars (tbl : List (String × String)) (fa : ResolverFn)
    (rq : AtomicInput → AtomicResult) (p : Plan) (input : AtomicInput) (res : AtomicResult)
    (hfa : ∀ v m lh pt ds, fa v m lh pt ds = PlanOutcome.ok p)
    (hfct : p.fctldash = "pbe-d4")
    (hdrv : input.driver = "gradient")
    (hok : compute tbl fa rq true input = Except.ok res) :
    ∃ ci, dict_get res.extras "qcvars" = some (Val.bag ci) ∧
      dict_get ci "CURRENT ENERGY" = some (Val.num res.return_energy) ∧
      dict_get ci "DISPERSION CORRECTION ENERGY" = some (Val.num res.return_energy) ∧
      dict_get ci "PBE-D4 DISPERSION CORRECTION ENERGY" = some (Val.num res.return_energy) ∧
      dict_get ci "CURRENT GRADIENT" = some res.return_result ∧
      dict_get ci "DISPERSION CORRECTION GRADIENT" = some res.return_result ∧
      dict_get ci "PBE-D4 DISPERSION CORRECTION GRADIENT" = some res.return_result := by
  have hok' : (match preprocess tbl fa input with
      | Except.error e => Except.error e
      | Except.ok im => postprocess im (rq im)) = Except.ok res := hok
  cases hpre : preprocess tbl fa input with
  | error e =>
    rw [hpre] at hok'
    exact absurd hok' (by simp)
  | ok im =>
    rw [hpre] at hok'
    simp only [] at hok'
    obtain ⟨hex, hdr, hprk⟩ := preprocess_ok_fields tbl fa input p im hfa hpre
    have hinfo : dict_get im.extras "info" = some (Val.plan p) := by
      rw [hex]
      exact dict_get_set_self _ _ _
    have hup : py_upper p.fctldash = "PBE-D4" := by
      rw [hfct]
      decide
    simp only [postprocess, hinfo, hup, hdr, hdrv] at hok'
    obtain ⟨g1, g2, g3, g4, g5, g6⟩ :=
      base_calcinfo_gradient_gets (rq im).return_energy (rq im).return_result
    split at hok'
    · split at hok'
      · exact absurd hok' (by simp)
      · rename_i ci2 hadd
        simp only [Except.ok.injEq] at hok'
        subst hok'
        have hpres := fun k h2 h3 h4 h5 =>
          add_pair_resolved_preserved _ _ _ _ k hadd h2 h3 h4 h5
        refine ⟨ci2, dict_get_set_self _ _ _, ?_, ?_, ?_, ?_, ?_, ?_⟩
        · rw [hpres _ (by decide) (by decide) (by decide) (by decide)]
          exact g1
        · rw [hpres _ (by decide) (by decide) (by decide) (by decide)]
          exact g2
        · rw [hpres _ (by decide) (by decide) (by decide) (by decide)]
          exact g3
        · rw [hpres _ (by decide) (by decide) (by decide) (by decide)]
          exact g4
        · rw [hpres _ (by decide) (by decide) (by decide) (by decide)]
          exact g5
        · rw [hpres _ (by decide) (by decide) (by decide) (by decide)]
          exact g6
    · simp only [Except.ok.injEq] at hok'
      subst hok'
      exact ⟨_, dict_get_set_self _ _ _, g1, g2, g3, g4, g5, g6⟩

/-- C6, witness: a concrete gradient request with plan `fctldash =
"pbe-d4"` produces the six `qcvars` keys. -/
theorem claim_C6_gradient_qcvars_witness :
    ∃ ci,
      dict_get (AtomicResult.extras ⟨2, Val.arr [1],
        [("info", Val.plan ⟨"pbe-d4"⟩),
         ("qcvars", Val.bag
           [("CURRENT ENERGY", Val.num 2),
            ("DISPERSION CORRECTION ENERGY", Val.num 2),
            ("PBE-D4 DISPERSION CORRECTION ENERGY", Val.num 2),
            ("CURRENT GRADIENT", Val.arr [1]),
            ("DISPERSION CORRECTION GRADIENT", Val.arr [1]),
            ("PBE-D4 DISPERSION CORRECTION GRADIENT", Val.arr [1])])]⟩) "qcvars" =
        some (Val.bag ci) ∧
      dict_get ci "CURRENT ENERGY" = some (Val.num 2) ∧
      dict_get ci "DISPERSION CORRECTION ENERGY" = some (Val.num 2) ∧
      dict_get ci "PBE-D4 DISPERSION CORRECTION ENERGY" = some (Val.num 2) ∧
      dict_get ci "CURRENT GRADIENT" = some (Val.arr [1]) ∧
      dict_get ci "DISPERSION CORRECTION GRADIENT" = some (Val.arr [1]) ∧
      dict_get ci "PBE-D4 DISPERSION CORRECTION GRADIENT" = some (Val.arr [1]) :=
  claim_C6_gradient_qcvars [] (resolver_ok ⟨"pbe-d4"⟩) (fun _ => ⟨2, Val.arr [1], []⟩)
    ⟨"pbe-d4"⟩ ⟨"pbe-d4", "gradient", kw_none, []⟩ _
    (fun _ _ _ _ _ => rfl) rfl rfl rfl

/-- C4, counterexample: with the key `"qcvars"` present in both the
request's extras (value `"mine"`) and the backend result's extras (value
`"backend"`) and a plan stashed under `"info"`, the final output's
`"qcvars"` entry is the derived calcinfo bag — neither the request's value
(as the claim demands) nor the backend's. -/
theorem claim_C4_extras_merge_cex :
    compute [] (resolver_ok ⟨""⟩) (fun _ => ⟨2, Val.num 2, [("qcvars", Val.str "backend")]⟩)
        true ⟨"pbe", "energy", kw_none, [("qcvars", Val.str "mine")]⟩ =
      Except.ok ⟨2, Val.num 2,
        [("qcvars", Val.bag [("CURRENT ENERGY", Val.num 2),
                             ("DISPERSION CORRECTION ENERGY", Val.num 2)]),
         ("info", Val.plan ⟨""⟩)]⟩ ∧
    Val.bag [("CURRENT ENERGY", Val.num 2), ("DISPERSION CORRECTION ENERGY", Val.num 2)] ≠
      Val.str "mine" :=
  ⟨rfl, fun h => Val.noConfusion h⟩

/-- C4, amended: on a successful post-processing step, the final extras
contain every key of the reconstructed request's extras, and on any shared
key the request's value overwrites the backend result's value — except the
key `"qcvars"` when the request's extras carry an `"info"` entry, in which
case the final `"qcvars"` value is the derived calcinfo bag. -/
theorem claim_C4_extras_merge_amended (im : AtomicInput) (output res : AtomicResult)
    (k : String) (v : Val)
    (hnd : dict_keys_nodup im.extras)
    (hok : postprocess im output = Except.ok res)
    (hk : dict_get im.extras k = some v) :
    (dict_get res.extras k).isSome = true ∧
    ((k ≠ "qcvars" ∨ dict_get im.extras "info" = none) → dict_get res.extras k = some v) := by
  have hmerged : dict_get (dict_update output.extras im.extras) k = some v :=
    dict_get_update_of_some _ _ _ _ hnd hk
  unfold postprocess at hok
  split at hok
  · rename_i hnone
    simp only [Except.ok.injEq] at hok
    subst hok
    exact ⟨by rw [hmerged]; rfl, fun _ => hmerged⟩
  · rename_i planinfo hplan
    have hfinal : ∀ bagv : Val,
        res.extras = dict_set (dict_update output.extras im.extras) "qcvars" bagv →
        (dict_get res.extras k).isSome = true ∧
        ((k ≠ "qcvars" ∨ dict_get im.extras "info" = none) →
          dict_get res.extras k = some v) := by
      intro bagv hre
      by_cases hq : k = "qcvars"
      · subst hq
        rw [hre, dict_get_set_self]
        refine ⟨rfl, fun hor => ?_⟩
        cases hor with
        | inl h => exact absurd rfl h
        | inr h => rw [hplan] at h; exact absurd h (by simp)
      · rw [hre, dict_get_set_ne _ _ _ _ (Ne.symm hq), hmerged]
        exact ⟨rfl, fun _ => rfl⟩
    split at hok
    · simp only [] at hok
      split at hok
      · exact absurd hok (by simp)
      · simp only [Except.ok.injEq] at hok
        exact hfinal _ (congrArg AtomicResult.extras hok.symm)
    · simp only [Except.ok.injEq] at hok
      exact hfinal _ (congrArg AtomicResult.extras hok.symm)
  · exact absurd hok (by simp)

/-- C4, witness for the amended theorem: a request-extras key `"a"`
survives the merge with its request value intact. -/
theorem claim_C4_extras_merge_amended_witness :
    (dict_get (AtomicResult.extras ⟨1, Val.num 1, [("a", Val.str "x")]⟩) "a").isSome = true ∧
    (("a" ≠ "qcvars" ∨
        dict_get (AtomicInput.extras ⟨"m", "energy", kw_none, [("a", Val.str "x")]⟩) "info" =
          none) →
      dict_get (AtomicResult.extras ⟨1, Val.num 1, [("a", Val.str "x")]⟩) "a" =
        some (Val.str "x")) :=
  claim_C4_extras_merge_amended ⟨"m", "energy", kw_none, [("a", Val.str "x")]⟩
    ⟨1, Val.num 1, [("a", Val.str "y")]⟩ ⟨1, Val.num 1, [("a", Val.str "x")]⟩ "a" (Val.str "x")
    (by simp [dict_keys_nodup]) rfl rfl
